import Mathlib

/-!
Shallow embedding of `function_app.py` (OneTrustReport): a serverless endpoint
that fetches compliance-control records from a paginated API, sorts them by a
dotted numeric identifier, derives a company name and an average score, and
renders the records as wrapped text lines onto fixed-size PDF pages.

JSON records are embedded as structures of optional fields (absence and JSON
null are collapsed into `Option.none`, which is faithful for every field the
program reads with `.get(..., default)` / `or {}` fallbacks).  Machine floats
are embedded as rationals; the Python `int()` / `float()` string parsers are
modelled for plain decimal literals (sign, digits, one optional decimal point;
`int()` additionally with single underscores between digits), which covers every
value the program's data can realistically carry and every input used below.
-/

namespace OneTrust

/-! ## Character-level helpers for Python `int()` / `float()` -/

/-- Python `str.split(sep)` for a one-character separator: splits at every
occurrence, keeping empty segments; the empty string yields `[[]]`. -/
def splitOnChar (sep : Char) : List Char → List (List Char)
  | [] => [[]]
  | c :: rest =>
    let r := splitOnChar sep rest
    if c = sep then [] :: r
    else
      match r with
      | h :: t => (c :: h) :: t
      | [] => [[c]]

/-- Python `str.strip()` restricted to whitespace: drop leading and trailing
whitespace characters. -/
def trimChars (cs : List Char) : List Char :=
  ((cs.dropWhile Char.isWhitespace).reverse.dropWhile Char.isWhitespace).reverse

/-- After an initial digit, a valid Python integer literal tail: digits with
single underscores allowed between digits. -/
def digitsTail : List Char → Bool
  | [] => true
  | '_' :: c :: rest => c.isDigit && digitsTail rest
  | ['_'] => false
  | c :: rest => c.isDigit && digitsTail rest

/-- A valid (unsigned) Python integer digit run: nonempty, starts with a digit,
single underscores allowed between digits. -/
def validIntDigits : List Char → Bool
  | [] => false
  | c :: rest => c.isDigit && digitsTail rest

/-- Numeric value of a digit run, ignoring underscores. -/
def digitsVal (cs : List Char) : Nat :=
  cs.foldl (fun a c => if c = '_' then a else 10 * a + (c.toNat - 48)) 0

/-- Model of Python `int(s)` for base-10 string input: strips surrounding
whitespace, accepts an optional sign followed by digits (single underscores
allowed between digits); `none` when `int()` would raise `ValueError`. -/
def pyInt (cs : List Char) : Option Int :=
  let cs := trimChars cs
  match cs with
  | '+' :: rest => if validIntDigits rest then some (digitsVal rest : Int) else none
  | '-' :: rest => if validIntDigits rest then some (-(digitsVal rest : Int)) else none
  | _ => if validIntDigits cs then some (digitsVal cs : Int) else none

/-- Model of Python `float(s)` restricted to plain decimal literals: strips
surrounding whitespace, accepts an optional sign, then digits with at most one
decimal point and at least one digit overall (no exponent, underscore, `inf` or
`nan` forms); `none` when `float()` would raise `ValueError`.  All string
values exercised by the program's data and by the theorems below are in this
fragment. -/
def pyFloat (cs : List Char) : Option ℚ :=
  let cs := trimChars cs
  let sign : Int := match cs with
    | '-' :: _ => -1
    | _ => 1
  let cs := match cs with
    | '+' :: rest => rest
    | '-' :: rest => rest
    | _ => cs
  let ip := cs.takeWhile (fun c => c ≠ '.')
  let rest := cs.dropWhile (fun c => c ≠ '.')
  match rest with
  | [] =>
    if !ip.isEmpty && ip.all Char.isDigit then some ((sign * (digitsVal ip : Int) : Int) : ℚ)
    else none
  | _ :: fp =>
    if (!ip.isEmpty || !fp.isEmpty) && ip.all Char.isDigit && fp.all Char.isDigit then
      some (((sign * (digitsVal (ip ++ fp) : Int) : Int) : ℚ) / (10 : ℚ) ^ fp.length)
    else none

/-! ## Data model: control records -/

/-- A JSON attribute value as the program can observe it: JSON null (`None`),
a string, or a number (floats embedded as rationals). -/
inductive AttrVal where
  | null
  | str (s : String)
  | num (q : ℚ)
deriving DecidableEq

/-- The nested `control` object; every field the program reads, all optional
(absence and JSON null collapse to `none`). -/
structure Control where
  identifier : Option String
  name : Option String
  description : Option String
  orgGroupName : Option String
deriving DecidableEq

/-- The nested `primaryEntity` object. -/
structure PrimaryEntity where
  name : Option String
deriving DecidableEq

/-- One entry of an attribute's entry list: `entry.get("value")`. -/
structure AttrEntry where
  value : AttrVal
deriving DecidableEq

/-- The nested `effectivenessInfo` object. -/
structure EffectivenessInfo where
  name : Option String
deriving DecidableEq

/-- One control record as returned by the upstream API; `attributes` is the
JSON object embedded as an association list. -/
structure Record where
  control : Option Control
  primaryEntity : Option PrimaryEntity
  attributes : Option (List (String × List AttrEntry))
  effectivenessInfo : Option EffectivenessInfo
deriving DecidableEq

/-- The empty dict that `item.get("control") or {}` falls back to. -/
def Control.empty : Control := ⟨none, none, none, none⟩

/-- The empty dict that `item.get("primaryEntity") or {}` falls back to. -/
def PrimaryEntity.empty : PrimaryEntity := ⟨none⟩

/-- Python truthiness of an optional string field: present and nonempty. -/
def pyTruthy (o : Option String) : Bool :=
  match o with
  | some s => s ≠ ""
  | none => false

/-! ## `get_attribute_value` -/

/-- `get_attribute_value(item, key)`: look the key up in `attributes` (missing
map or missing key degrade to the empty list), take the first entry's `value`,
and return the string `"N/A"` when the entry list is empty or the value is
`None`, the string `"0"`, or numeric zero. -/
def get_attribute_value (item : Record) (key : String) : AttrVal :=
  let attrs := item.attributes.getD []
  let values := (attrs.lookup key).getD []
  match values with
  | [] => .str "N/A"
  | v :: _ =>
    if v.value = .null ∨ v.value = .str "0" ∨ v.value = .num 0 then .str "N/A"
    else v.value

/-! ## `identifier_key` and the sort -/

/-- `identifier_key(item)`: read `control.identifier` (defaulting to `""`),
split on `.`, and turn each segment into an integer, appending `0` whenever
`int(part)` raises `ValueError`. -/
def identifier_key (item : Record) : List Int :=
  let identifier := ((item.control.getD Control.empty).identifier).getD ""
  (splitOnChar '.' identifier.toList).foldl
    (fun parts part => parts ++ [(pyInt part).getD 0]) []

/-- Lexicographic comparison of integer-sequence keys, exactly Python's `<=`
on lists of ints: the empty list precedes everything, and a shorter list
precedes a longer one sharing its prefix. -/
def keyLe : List Int → List Int → Bool
  | [], _ => true
  | _ :: _, [] => false
  | a :: as, b :: bs => if a < b then true else if a = b then keyLe as bs else false

/-- The record ordering used by `controls.sort(key=identifier_key)`. -/
def recordLe (a b : Record) : Prop :=
  keyLe (identifier_key a) (identifier_key b) = true

instance : DecidableRel recordLe := fun a b =>
  inferInstanceAs (Decidable (keyLe (identifier_key a) (identifier_key b) = true))

/-- `controls.sort(key=identifier_key)`: a stable sort by the identifier key,
embedded as insertion sort (stable, like CPython's list sort). -/
def sortControls (l : List Record) : List Record :=
  l.insertionSort recordLe

/-! ## `generate_pdf`: company name and average score -/

/-- The company-name loop of `generate_pdf`: walk the (sorted) records; at a
record with a truthy `control.orgGroupName` take it and stop; otherwise at a
record with a truthy `primaryEntity.name` take that and stop; if the walk
finds neither in any record the name stays `"Unknown Company"`. -/
def companyNameOf : List Record → String
  | [] => "Unknown Company"
  | item :: rest =>
    let control := item.control.getD Control.empty
    if pyTruthy control.orgGroupName then control.orgGroupName.getD ""
    else
      let primary := item.primaryEntity.getD PrimaryEntity.empty
      if pyTruthy primary.name then primary.name.getD ""
      else companyNameOf rest

/-- `float(v)` as applied under `except ValueError` in the average loop.  The
`.null` case is unreachable there: `get_attribute_value` never returns `None`
(it substitutes `"N/A"`), and `float(None)` would raise an uncaught
`TypeError`. -/
def attrFloat : AttrVal → Option ℚ
  | .num q => some q
  | .str s => pyFloat s.toList
  | .null => none

/-- The average-score computation of `generate_pdf`: collect
`float(get_attribute_value(item, "AttributeFormulaValue.value1_2"))` over all
records, dropping values whose parse raises `ValueError`; the average is
`sum/len` of the collected values, or `None` when none were collected. -/
def avgOf (l : List Record) : Option ℚ :=
  let values := l.filterMap
    (fun item => attrFloat (get_attribute_value item "AttributeFormulaValue.value1_2"))
  if values.isEmpty then none else some (values.sum / (values.length : ℚ))

/-- The observable data results of `generate_pdf(controls)`: the caller's list
after the in-place `controls.sort(key=identifier_key)`, and the derived company
name and average score (both computed over the sorted list).  The canvas
drawing performed with these values is embedded separately by `drawSub`,
`drawLine` and `renderLines` below. -/
structure PdfResult where
  controlsAfter : List Record
  company_name : String
  avg : Option ℚ
deriving DecidableEq

/-- `generate_pdf(controls)`, data part. -/
def generate_pdf (controls : List Record) : PdfResult :=
  let sorted := sortControls controls
  { controlsAfter := sorted
    company_name := companyNameOf sorted
    avg := avgOf sorted }

/-! ## The renderer (`generate_pdf.draw` and the cursor state) -/

/-- LETTER page height in points (`width, height = LETTER`; only the height
matters for the layout). -/
def pageHeight : Int := 792

/-- `y_margin = 40`. -/
def yMargin : Int := 40

/-- `line_height = 14`. -/
def lineHeight : Int := 14

/-- The renderer state: the vertical cursor `y`, the number of pages of the
document so far (the page the cursor is on, counting the final `c.save()`
page), and the vertical positions at which sub-lines have been drawn, in
drawing order. -/
structure RState where
  y : Int
  pages : Nat
  drawnYs : List Int
deriving DecidableEq

/-- The initial state: `y = height - y_margin` on the first page. -/
def initRState : RState := { y := pageHeight - yMargin, pages := 1, drawnYs := [] }

/-- The body of the inner loop of `draw` for one wrapped sub-line: if the
cursor has reached or passed the bottom margin, `c.showPage()` starts a new
page and the cursor resets to the top margin; then `c.drawString(x_margin, y,
line)` draws at the cursor and the cursor advances down by `line_height`. -/
def drawSub (st : RState) : RState :=
  if st.y ≤ yMargin then
    { y := (pageHeight - yMargin) - lineHeight, pages := st.pages + 1,
      drawnYs := st.drawnYs ++ [pageHeight - yMargin] }
  else
    { y := st.y - lineHeight, pages := st.pages, drawnYs := st.drawnYs ++ [st.y] }

/-- Drawing `n` wrapped sub-lines in sequence. -/
def renderSubs : Nat → RState → RState
  | 0, st => st
  | n + 1, st => drawSub (renderSubs n st)

/-- Drawing `n` logical lines of `k` wrapped sub-lines each. -/
def drawNK : Nat → Nat → RState → RState
  | 0, _, st => st
  | n + 1, k, st => drawNK n k (renderSubs k st)

/-- The document state after rendering `n` logical lines of `k` sub-lines each
from the initial state. -/
def renderDoc (n k : Nat) : RState := drawNK n k initRState

/-- Python `str.split()` with no argument: the whitespace-separated words of
the text, empty words dropped.  `acc` holds the reversed current word. -/
def wordsAux : List Char → List Char → List (List Char)
  | acc, [] => if acc.isEmpty then [] else [acc.reverse]
  | acc, c :: rest =>
    if c.isWhitespace then
      if acc.isEmpty then wordsAux [] rest else acc.reverse :: wordsAux [] rest
    else wordsAux (c :: acc) rest

/-- The words of a text, as `textwrap` chunks them before filling. -/
def pyWords (cs : List Char) : List (List Char) := wordsAux [] cs

/-- Greedy line filling: pack words into lines of at most `width` characters,
joining words on a line with single spaces. -/
def fillAux (width : Nat) : List Char → List (List Char) → List (List Char)
  | cur, [] => if cur.isEmpty then [] else [cur]
  | cur, w :: ws =>
    if cur.isEmpty then fillAux width w ws
    else if cur.length + 1 + w.length ≤ width then fillAux width (cur ++ ' ' :: w) ws
    else cur :: fillAux width w ws

/-- Model of the library call `textwrap.wrap(text, width)` with default
settings: split the text into whitespace-separated words, then fill lines
greedily.  Exact for texts whose words are at most `width` characters long
(`textwrap` additionally splits longer words); in particular exact on the
empty and whitespace-only texts, where it returns no lines at all. -/
def textwrapWrap (width : Nat) (s : String) : List String :=
  (fillAux width [] (pyWords s.toList)).map (fun cs => String.mk cs)

/-- `draw(text)`: wrap the text to width 100 and feed each wrapped sub-line
through the cursor loop. -/
def drawLine (text : String) (st : RState) : RState :=
  (textwrapWrap 100 text).foldl (fun s _line => drawSub s) st

/-- Drawing a sequence of logical lines with `draw`. -/
def renderLines (lines : List String) (st : RState) : RState :=
  lines.foldl (fun s line => drawLine line s) st

/-! ## The fetcher (`fetch_controls`) -/

/-- One page of the upstream response as the fetch loop reads it: the
`content` list and the optional `totalPages` field. -/
structure PageData (α : Type) where
  content : List α
  totalPages : Option Nat
deriving DecidableEq

/-- The outcome of `fetch_controls`: either the exception that aborted it
(propagating out of the function with nothing returned), or the accumulated
record list together with the number of page requests issued. -/
inductive FetchResult (α : Type) where
  | error (e : String)
  | ok (records : List α) (requests : Nat)
deriving DecidableEq

/-- The pagination loop of `fetch_controls`, over an oracle giving the outcome
of the `POST` for each page index: `Except.error` when the request fails
(`raise_for_status` on a non-success status, or a network error), `Except.ok`
with the parsed body otherwise.  The loop extends the accumulator with the
page's `content`, reads `totalPages` (missing defaults to 1), increments the
page counter, and stops when the next page index reaches or passes
`totalPages`.  Returns `none` when the fuel runs out before the loop
terminates. -/
def fetchLoop {α : Type} (oracle : Nat → Except String (PageData α)) :
    Nat → Nat → List α → Nat → Option (FetchResult α)
  | 0, _, _, _ => none
  | fuel + 1, page, acc, reqs =>
    match oracle page with
    | .error e => some (.error e)
    | .ok data =>
      let acc' := acc ++ data.content
      let total := data.totalPages.getD 1
      let page' := page + 1
      let reqs' := reqs + 1
      if total ≤ page' then some (.ok acc' reqs')
      else fetchLoop oracle fuel page' acc' reqs'

/-- `fetch_controls(org_id)`: run the pagination loop from page 0 with an
empty accumulator. -/
def fetch_controls {α : Type} (oracle : Nat → Except String (PageData α))
    (fuel : Nat) : Option (FetchResult α) :=
  fetchLoop oracle fuel 0 [] 0

/-! ## Concrete fixtures -/

/-- A record carrying only an identifier (fields listed in declaration order:
control ⟨identifier, name, description, orgGroupName⟩, primaryEntity,
attributes, effectivenessInfo). -/
def mkRec (id : String) : Record :=
  ⟨some ⟨some id, none, none, none⟩, none, none, none⟩

/-- A record with an identifier and a string-valued
`AttributeFormulaValue.value1_2` attribute. -/
def mkRecV (id v : String) : Record :=
  ⟨some ⟨some id, none, none, none⟩, none,
    some [("AttributeFormulaValue.value1_2", [⟨.str v⟩])], none⟩

/-- A record with no `orgGroupName` but `primaryEntity.name = "Beta"`. -/
def recBeta : Record :=
  ⟨some ⟨some "1", none, none, none⟩, some ⟨some "Beta"⟩, none, none⟩

/-- A record with `orgGroupName = "Acme"`. -/
def recAcme : Record :=
  ⟨some ⟨some "2", none, none, some "Acme"⟩, none, none, none⟩

/-- A three-page upstream response: 50, 50 and 7 records, `totalPages = 3`. -/
def oracle3 : Nat → Except String (PageData Nat)
  | 0 => .ok ⟨List.range 50, some 3⟩
  | 1 => .ok ⟨List.range' 50 50, some 3⟩
  | 2 => .ok ⟨List.range' 100 7, some 3⟩
  | _ => .error "no such page"

/-- A single-page response reporting `totalPages = 1`. -/
def oracle1 : Nat → Except String (PageData Nat) := fun _ => .ok ⟨[0], some 1⟩

/-- A single-page response with no `totalPages` field. -/
def oracleNone : Nat → Except String (PageData Nat) := fun _ => .ok ⟨[5], none⟩

/-- A response whose page 0 succeeds and whose page 1 fails
(`raise_for_status` on an HTTP 500, say). -/
def badOracle : Nat → Except String (PageData Nat)
  | 0 => .ok ⟨[1, 2], some 3⟩
  | _ => .error "boom"

/-! ## Helper lemmas -/

lemma foldl_push_eq_map {α β : Type} (f : α → β) (l : List α) :
    ∀ init : List β, l.foldl (fun acc a => acc ++ [f a]) init = init ++ l.map f := by
  induction l with
  | nil => intro init; simp
  | cons a l ih => intro init; simp [ih, List.append_assoc]

/-! ## C5: the sort key -/

/-- C5: for every record, `identifier_key` is the sequence obtained by
splitting the identifier on `.` and mapping each segment to its integer value,
substituting 0 for every segment that is not a valid integer; in particular
the key of `"1.2.a"` is `[1, 2, 0]`. -/
theorem identifier_key_spec (item : Record) :
    identifier_key item =
      (splitOnChar '.'
          ((((item.control.getD Control.empty).identifier).getD "").toList)).map
        (fun part => (pyInt part).getD 0) ∧
    identifier_key (mkRec "1.2.a") = [1, 2, 0] := by
  constructor
  · show (splitOnChar '.' _).foldl _ [] = _
    rw [foldl_push_eq_map]
    simp
  · decide

/-! ## C9: `generate_pdf` mutates its argument -/

/-- C9: `generate_pdf` sorts the caller's record list in place — the list the
caller holds after the call is the identifier-key sort of what was passed in,
and a concrete out-of-order list really is reordered rather than left in
arrival order. -/
theorem generate_pdf_mutates :
    (∀ l : List Record, (generate_pdf l).controlsAfter = sortControls l) ∧
    (generate_pdf [mkRec "10.1", mkRec "2.1"]).controlsAfter ≠
      [mkRec "10.1", mkRec "2.1"] :=
  ⟨fun _ => rfl, by decide⟩

/-! ## C1: company-name derivation -/

/-- The claim's company-name derivation, following the spec's words: the first
`control.orgGroupName` found scanning all records in order; only if no record
in the entire list has one, the first `primaryEntity.name` found; only if
neither exists in any record, the placeholder. -/
def companyNameClaim (l : List Record) : String :=
  match l.findSome? (fun item =>
      let c := item.control.getD Control.empty
      if pyTruthy c.orgGroupName then c.orgGroupName else none) with
  | some s => s
  | none =>
    match l.findSome? (fun item =>
        let p := item.primaryEntity.getD PrimaryEntity.empty
        if pyTruthy p.name then p.name else none) with
    | some s => s
    | none => "Unknown Company"

/-- C1 counterexample: for the two-record list `[recBeta, recAcme]` (which the
sort leaves in place), the claim's derivation yields `"Acme"` — the first
`orgGroupName` anywhere — but the code stops at the first record that has
either field and returns its `primaryEntity.name`, `"Beta"`. -/
theorem company_name_counterexample :
    sortControls [recBeta, recAcme] = [recBeta, recAcme] ∧
    companyNameClaim [recBeta, recAcme] = "Acme" ∧
    (generate_pdf [recBeta, recAcme]).company_name = "Beta" ∧
    (generate_pdf [recBeta, recAcme]).company_name ≠
      companyNameClaim [recBeta, recAcme] := by
  decide

/-- The amended company-name derivation: scanning the (sorted) records in
order, the first record having a non-empty `control.orgGroupName` or a
non-empty `primaryEntity.name` decides the name — its `orgGroupName` if
non-empty, else its `primaryEntity.name`; if no record has either, the
placeholder `"Unknown Company"`. -/
def companyNameAmended (l : List Record) : String :=
  match l.find? (fun item =>
      pyTruthy (item.control.getD Control.empty).orgGroupName ||
      pyTruthy (item.primaryEntity.getD PrimaryEntity.empty).name) with
  | some item =>
    if pyTruthy (item.control.getD Control.empty).orgGroupName then
      (item.control.getD Control.empty).orgGroupName.getD ""
    else (item.primaryEntity.getD PrimaryEntity.empty).name.getD ""
  | none => "Unknown Company"

/-- C1 amended: for every list of control records, the company name derived by
`generate_pdf` is decided by the first post-sort record that has a non-empty
`control.orgGroupName` or a non-empty `primaryEntity.name` (preferring
`orgGroupName` within that record), and is `"Unknown Company"` when no record
has either. -/
theorem company_name_first_match (l : List Record) :
    (generate_pdf l).company_name = companyNameAmended (sortControls l) := by
  show companyNameOf (sortControls l) = companyNameAmended (sortControls l)
  generalize sortControls l = m
  induction m with
  | nil => rfl
  | cons item rest ih =>
    by_cases h1 : pyTruthy (item.control.getD Control.empty).orgGroupName
    · rw [companyNameAmended, List.find?_cons_of_pos _ (by simp [h1])]
      simp [companyNameOf, h1]
    · by_cases h2 : pyTruthy (item.primaryEntity.getD PrimaryEntity.empty).name
      · rw [companyNameAmended, List.find?_cons_of_pos _ (by simp [h1, h2])]
        simp [companyNameOf, h1, h2]
      · rw [companyNameAmended, List.find?_cons_of_neg _ (by simp [h1, h2]),
          ← companyNameAmended, ← ih]
        simp [companyNameOf, h1, h2]

/-! ## C10: empty logical lines are no-ops -/

/-- C10: wrapping the empty string yields no sub-lines, so drawing an empty
logical line leaves the renderer state unchanged (nothing drawn, cursor not
advanced); consequently removing all empty spacer lines from any drawn line
sequence does not change the rendered output. -/
theorem draw_empty_noop :
    textwrapWrap 100 "" = [] ∧
    (∀ st : RState, drawLine "" st = st) ∧
    (∀ (st : RState) (lines : List String),
      renderLines lines st =
        renderLines (lines.filter (fun l => decide (l ≠ ""))) st) := by
  refine ⟨rfl, fun st => rfl, ?_⟩
  intro st lines
  induction lines generalizing st with
  | nil => rfl
  | cons l ls ih =>
    by_cases h : l = ""
    · subst h
      show renderLines ls (drawLine "" st) = _
      rw [show drawLine "" st = st from rfl]
      simpa using ih st
    · show renderLines ls (drawLine l st) = _
      rw [List.filter_cons_of_pos (by simp [h])]
      show _ = renderLines (ls.filter _) (drawLine l st)
      exact ih (drawLine l st)

/-! ## C8: fetch failure atomicity -/

/-- C8: if the page request for the page the pagination loop is currently on
fails, the entire fetch returns that failure immediately — the result carries
no records, whatever was accumulated from earlier successful pages. -/
theorem fetch_error_aborts {α : Type} (oracle : Nat → Except String (PageData α))
    (fuel page reqs : Nat) (acc : List α) (e : String)
    (h : oracle page = .error e) :
    fetchLoop oracle (fuel + 1) page acc reqs = some (.error e) := by
  simp only [fetchLoop, h]

/-- C8 witness: a fetch whose page 0 succeeds (with two records and
`totalPages = 3`) and whose page 1 fails ends in the failure, with no records
returned. -/
theorem fetch_error_aborts_witness :
    badOracle 1 = .error "boom" ∧
    fetchLoop badOracle 5 1 [1, 2] 1 = some (.error "boom") ∧
    fetch_controls badOracle 6 = some (.error "boom") :=
  ⟨rfl, fetch_error_aborts badOracle 4 1 1 [1, 2] "boom" rfl, by decide⟩

/-! ## C6: the sort is stable and total -/

lemma keyLe_refl (xs : List Int) : keyLe xs xs = true := by
  induction xs with
  | nil => rfl
  | cons a as ih => simp [keyLe, ih]

lemma keyLe_append (ks tail : List Int) : keyLe ks (ks ++ tail) = true := by
  induction ks with
  | nil => rfl
  | cons a as ih => simp [keyLe, ih]

lemma keyLe_total (xs ys : List Int) : keyLe xs ys = true ∨ keyLe ys xs = true := by
  induction xs generalizing ys with
  | nil => left; rfl
  | cons a as ih =>
    cases ys with
    | nil => right; rfl
    | cons b bs =>
      rcases lt_trichotomy a b with h | h | h
      · left; simp [keyLe, h]
      · subst h
        rcases ih bs with hh | hh
        · left; simp [keyLe, hh]
        · right; simp [keyLe, hh]
      · right; simp [keyLe, h]

lemma keyLe_trans (xs ys zs : List Int) (h1 : keyLe xs ys = true)
    (h2 : keyLe ys zs = true) : keyLe xs zs = true := by
  induction xs generalizing ys zs with
  | nil => rfl
  | cons a as ih =>
    cases ys with
    | nil => simp [keyLe] at h1
    | cons b bs =>
      cases zs with
      | nil => simp [keyLe] at h2
      | cons c cs =>
        simp only [keyLe] at h1 h2 ⊢
        by_cases hab : a < b
        · by_cases hbc : b < c
          · simp [lt_trans hab hbc]
          · by_cases hbc2 : b = c
            · subst hbc2; simp [hab]
            · simp [hbc, hbc2] at h2
        · by_cases hab2 : a = b
          · subst hab2
            simp [lt_irrefl] at h1
            by_cases hbc : a < c
            · simp [hbc]
            · by_cases hbc2 : a = c
              · subst hbc2
                simp [lt_irrefl] at h2 ⊢
                exact ih bs cs h1 h2
              · simp [hbc, hbc2] at h2
          · simp [hab, hab2] at h1

instance : IsTotal Record recordLe := ⟨fun _ _ => keyLe_total _ _⟩

instance : IsTrans Record recordLe := ⟨fun _ _ _ => keyLe_trans _ _ _⟩

lemma filter_orderedInsert_of_pos (p : Record → Bool) (x : Record)
    (hpx : p x = true) (hmin : ∀ b, p b = true → recordLe x b) (l : List Record) :
    (l.orderedInsert recordLe x).filter p = x :: l.filter p := by
  induction l with
  | nil => simp [List.orderedInsert, hpx]
  | cons b l ih =>
    rw [List.orderedInsert]
    by_cases hr : recordLe x b
    · rw [if_pos hr]
      simp [List.filter_cons, hpx]
    · rw [if_neg hr]
      have hpb : p b = false := by
        rcases Bool.eq_false_or_eq_true (p b) with h | h
        · exact absurd (hmin b h) hr
        · exact h
      simp [List.filter_cons, hpb, ih]

lemma filter_orderedInsert_of_neg (p : Record → Bool) (x : Record)
    (hpx : p x = false) (l : List Record) :
    (l.orderedInsert recordLe x).filter p = l.filter p := by
  induction l with
  | nil => simp [List.orderedInsert, hpx]
  | cons b l ih =>
    rw [List.orderedInsert]
    by_cases hr : recordLe x b
    · rw [if_pos hr]
      simp [List.filter_cons, hpx]
    · rw [if_neg hr]
      simp [List.filter_cons, ih]

lemma sortControls_filter_key (l : List Record) (ks : List Int) :
    (sortControls l).filter (fun item => decide (identifier_key item = ks)) =
      l.filter (fun item => decide (identifier_key item = ks)) := by
  induction l with
  | nil => rfl
  | cons x l ih =>
    show ((sortControls l).orderedInsert recordLe x).filter _ = _
    by_cases h : identifier_key x = ks
    · rw [filter_orderedInsert_of_pos _ _ (by simp [h]) ?_ (sortControls l), ih]
      · simp [List.filter_cons, h]
      · intro b hb
        have hb' : identifier_key b = ks := of_decide_eq_true hb
        show keyLe (identifier_key x) (identifier_key b) = true
        rw [h, hb']
        exact keyLe_refl ks
    · rw [filter_orderedInsert_of_neg _ _ (by simp [h]) (sortControls l), ih]
      simp [List.filter_cons, h]

/-- C6: sorting compares integer-sequence keys lexicographically (the ordering
is total, and a key precedes any extension of itself, so shorter sequences
precede longer ones with an equal shared prefix); the sorted output is ordered
under this comparison; records with equal keys keep their relative order (the
sublist of records with any fixed key is unchanged); and the identifiers
`["10.1", "2.1", "2.10", "2.2"]` come out as `["2.1", "2.2", "2.10", "10.1"]`. -/
theorem sorting_stable_total :
    (∀ a b : Record, recordLe a b ∨ recordLe b a) ∧
    (∀ ks tail : List Int, keyLe ks (ks ++ tail) = true) ∧
    (∀ l : List Record, List.Sorted recordLe (sortControls l)) ∧
    (∀ (l : List Record) (ks : List Int),
      (sortControls l).filter (fun item => decide (identifier_key item = ks)) =
        l.filter (fun item => decide (identifier_key item = ks))) ∧
    (sortControls [mkRec "10.1", mkRec "2.1", mkRec "2.10", mkRec "2.2"]).map
        (fun item => ((item.control.getD Control.empty).identifier).getD "") =
      ["2.1", "2.2", "2.10", "10.1"] :=
  ⟨fun _ _ => keyLe_total _ _, keyLe_append,
   fun l => List.sorted_insertionSort recordLe l,
   sortControls_filter_key, by decide⟩

/-! ## C4: average-score exclusion -/

/-- The spec's qualifying value of a record, in the spec's words: the first
entry's value under `"AttributeFormulaValue.value1_2"`; absence of the
attribute, an empty entry list, `None`, the string `"0"` and numeric zero are
excluded outright; the remaining values are parsed as floats, parse failures
silently discarded. -/
def qualifyingValue (item : Record) : Option ℚ :=
  match ((item.attributes.getD []).lookup "AttributeFormulaValue.value1_2").getD [] with
  | [] => none
  | e :: _ =>
    match e.value with
    | .null => none
    | .num q => if q = 0 then none else some q
    | .str s => if s = "0" then none else pyFloat s.toList

/-- The spec's average: the arithmetic mean of the qualifying values, or not
applicable when no values qualify. -/
def avgSpecOf (l : List Record) : Option ℚ :=
  let vals := l.filterMap qualifyingValue
  if vals.isEmpty then none else some (vals.sum / (vals.length : ℚ))

lemma pyFloat_NA : pyFloat "N/A".toList = none := by decide

lemma attrFloat_get_eq (item : Record) :
    attrFloat (get_attribute_value item "AttributeFormulaValue.value1_2") =
      qualifyingValue item := by
  simp only [get_attribute_value, qualifyingValue]
  cases hv : ((item.attributes.getD []).lookup "AttributeFormulaValue.value1_2").getD [] with
  | nil => simpa [attrFloat] using pyFloat_NA
  | cons e rest =>
    dsimp only
    by_cases h0 : e.value = .null ∨ e.value = .str "0" ∨ e.value = .num 0
    · rw [if_pos h0]
      rcases h0 with h | h | h <;> rw [h] <;>
        simpa [attrFloat] using pyFloat_NA
    · rw [if_neg h0]
      push_neg at h0
      obtain ⟨hn, hs, hq⟩ := h0
      cases hval : e.value with
      | null => exact absurd hval hn
      | str s =>
        have : s ≠ "0" := by rintro rfl; exact hs hval
        simp [attrFloat, this]
      | num q =>
        have : q ≠ 0 := by rintro rfl; exact hq hval
        simp [attrFloat, this]

/-- C4: for every list of records the code's average equals the spec's — the
mean of the successfully float-parsed first-entry values of
`"AttributeFormulaValue.value1_2"`, with absence, an empty entry list, `None`,
the string `"0"` and numeric zero excluded rather than counted as zero,
unparseable values silently discarded, and no value at all when none qualify;
and on the values `["10", "0", "N/A", "30"]` the average is 20. -/
theorem average_score_exclusions :
    (∀ l : List Record, avgOf l = avgSpecOf l) ∧
    (generate_pdf [mkRecV "1" "10", mkRecV "2" "0", mkRecV "3" "N/A",
        mkRecV "4" "30"]).avg = some 20 := by
  constructor
  · intro l
    unfold avgOf avgSpecOf
    simp only [attrFloat_get_eq]
  · have hs : sortControls [mkRecV "1" "10", mkRecV "2" "0", mkRecV "3" "N/A",
        mkRecV "4" "30"] =
        [mkRecV "1" "10", mkRecV "2" "0", mkRecV "3" "N/A", mkRecV "4" "30"] := by
      decide
    show avgOf (sortControls [mkRecV "1" "10", mkRecV "2" "0", mkRecV "3" "N/A",
      mkRecV "4" "30"]) = some 20
    rw [hs]
    have hl : List.filterMap
        (fun item => attrFloat (get_attribute_value item "AttributeFormulaValue.value1_2"))
        [mkRecV "1" "10", mkRecV "2" "0", mkRecV "3" "N/A", mkRecV "4" "30"] =
        [((1 * 10 : Int) : ℚ), ((1 * 30 : Int) : ℚ)] := rfl
    simp only [avgOf, hl]
    norm_num

/-! ## C3: pagination -/

lemma fetchLoop_const_pages {α : Type} (oracle : Nat → Except String (PageData α))
    (cont : Nat → List α) (T : Nat)
    (hco : ∀ p, p < T → oracle p = .ok ⟨cont p, some T⟩) :
    ∀ (fuel p : Nat) (acc : List α) (reqs : Nat), p < T → T - p ≤ fuel →
      fetchLoop oracle fuel p acc reqs =
        some (.ok (acc ++ (List.range' p (T - p)).flatMap cont) (reqs + (T - p))) := by
  intro fuel
  induction fuel with
  | zero => intro p acc reqs hp hf; omega
  | succ n ih =>
    intro p acc reqs hp hf
    simp only [fetchLoop, hco p hp, Option.getD_some]
    by_cases hstop : T ≤ p + 1
    · rw [if_pos hstop]
      have h1 : T - p = 1 := by omega
      rw [h1]
      simp [List.range']
    · rw [if_neg hstop]
      have h2 : T - p = (T - (p + 1)) + 1 := by omega
      have h3 : reqs + ((T - (p + 1)) + 1) = reqs + 1 + (T - (p + 1)) := by omega
      rw [h2, h3]
      rw [show List.range' p ((T - (p + 1)) + 1) = p :: List.range' (p + 1) (T - (p + 1))
        from rfl]
      simp only [List.flatMap_cons, ← List.append_assoc]
      exact ih (p + 1) (acc ++ cont p) (reqs + 1) (by omega) (by omega)

/-- C3: the fetcher accumulates the `content` of successive pages and stops
exactly when the next page index would reach or exceed `totalPages`: when all
pages report `totalPages = T ≥ 1`, it issues exactly `T` requests and returns
the pages' contents concatenated in arrival order; a missing `totalPages` is
treated as 1 (a single request, returning page 0's content); and for a 3-page
response of 50/50/7 records with `totalPages = 3` it issues exactly 3 requests
and returns the 107 records in arrival order. -/
theorem fetch_pagination :
    (∀ (α : Type) (oracle : Nat → Except String (PageData α)) (cont : Nat → List α)
        (T fuel : Nat), 1 ≤ T → T ≤ fuel →
        (∀ p, p < T → oracle p = .ok ⟨cont p, some T⟩) →
        fetch_controls oracle fuel = some (.ok ((List.range T).flatMap cont) T)) ∧
    (∀ (α : Type) (oracle : Nat → Except String (PageData α)) (c : List α)
        (fuel : Nat), oracle 0 = .ok ⟨c, none⟩ →
        fetch_controls oracle (fuel + 1) = some (.ok c 1)) ∧
    fetch_controls oracle3 3 = some (.ok (List.range 107) 3) := by
  refine ⟨?_, ?_, by decide⟩
  · intro α oracle cont T fuel hT hfuel hco
    unfold fetch_controls
    have h := fetchLoop_const_pages oracle cont T hco fuel 0 [] 0 (by omega) (by omega)
    simpa [List.range_eq_range'] using h
  · intro α oracle c fuel h
    simp [fetch_controls, fetchLoop, h]

/-- C3 witness: a one-page response with `totalPages = 1` is fetched in one
request, and so is a one-page response with no `totalPages` field. -/
theorem fetch_pagination_witness :
    fetch_controls oracle1 2 = some (.ok ((List.range 1).flatMap (fun _ => [0])) 1) ∧
    fetch_controls oracleNone 1 = some (.ok [5] 1) :=
  ⟨fetch_pagination.1 Nat oracle1 (fun _ => [0]) 1 2 (by decide) (by decide)
      (fun _ _ => rfl),
   fetch_pagination.2.1 Nat oracleNone [5] 0 rfl⟩

/-! ## C2 and C7: the renderer -/

lemma renderSubs_add (a b : Nat) (st : RState) :
    renderSubs (a + b) st = renderSubs a (renderSubs b st) := by
  induction a with
  | zero => simp [renderSubs, Nat.zero_add]
  | succ n ih =>
    rw [Nat.succ_add]
    show drawSub (renderSubs (n + b) st) = drawSub (renderSubs n (renderSubs b st))
    rw [ih]

lemma drawNK_eq_renderSubs (n k : Nat) (st : RState) :
    drawNK n k st = renderSubs (n * k) st := by
  induction n generalizing st with
  | zero => rw [Nat.zero_mul]; rfl
  | succ m ih =>
    show drawNK m k (renderSubs k st) = _
    rw [ih, ← renderSubs_add, Nat.succ_mul]

lemma renderSubs_formula (s : Nat) (hs : 1 ≤ s) :
    (renderSubs s initRState).pages = (s + 50) / 51 ∧
    (renderSubs s initRState).y = 752 - 14 * ((s - 51 * ((s - 1) / 51) : Nat) : Int) := by
  induction s with
  | zero => omega
  | succ n ih =>
    rcases Nat.eq_zero_or_pos n with hn | hn
    · subst hn
      exact ⟨by decide, by decide⟩
    · obtain ⟨hp, hy⟩ := ih hn
      show (drawSub (renderSubs n initRState)).pages = _ ∧
        (drawSub (renderSubs n initRState)).y = _
      unfold drawSub
      rw [hy]
      unfold yMargin pageHeight lineHeight
      by_cases hc : (752 : Int) - 14 * ((n - 51 * ((n - 1) / 51) : Nat) : Int) ≤ 40
      · rw [if_pos hc]
        constructor
        · show (renderSubs n initRState).pages + 1 = (n + 1 + 50) / 51
          rw [hp]
          omega
        · show (792 - 40 : Int) - 14 = _
          omega
      · rw [if_neg hc]
        constructor
        · show (renderSubs n initRState).pages = (n + 1 + 50) / 51
          rw [hp]
          omega
        · show (752 : Int) - 14 * ((n - 51 * ((n - 1) / 51) : Nat) : Int) - 14 = _
          omega

/-- C2 amended: for N logical lines of k wrapped sub-lines each with at least
one sub-line in total, the renderer produces exactly ceil(N*k / 51) pages: the
page capacity is 51 sub-lines, one more than the claim's
floor((pageHeight - 2*margin)/lineHeight) = 50, because a sub-line is still
drawn when the cursor sits less than one line height above the bottom
margin. -/
theorem page_count (N k : Nat) (h : 1 ≤ N * k) :
    (renderDoc N k).pages = (N * k + 50) / 51 := by
  unfold renderDoc
  rw [drawNK_eq_renderSubs]
  exact (renderSubs_formula (N * k) h).1

/-- C2 witness: 3 lines of 2 sub-lines each produce ceil(6/51) = 1 page. -/
theorem page_count_witness :
    1 ≤ 3 * 2 ∧ (renderDoc 3 2).pages = (3 * 2 + 50) / 51 :=
  ⟨by decide, page_count 3 2 (by decide)⟩

/-- The page capacity exactly as the claim computes it:
floor((pageHeight - 2*margin) / lineHeight). -/
def capacityClaim : Nat := (792 - 2 * 40) / 14

set_option maxRecDepth 4000 in
/-- C2 counterexample: 51 logical lines of one sub-line each fit on a single
page, but the claim's formula ceil(51*1 / capacityClaim) with
capacityClaim = 50 demands two pages. -/
theorem page_count_counterexample :
    capacityClaim = 50 ∧
    (51 * 1 + capacityClaim - 1) / capacityClaim = 2 ∧
    (renderDoc 51 1).pages = 1 ∧
    (renderDoc 51 1).pages ≠ (51 * 1 + capacityClaim - 1) / capacityClaim := by
  decide

lemma drawSub_drawn (st : RState) (hst : ∀ p ∈ st.drawnYs, yMargin < p) :
    ∀ p ∈ (drawSub st).drawnYs, yMargin < p := by
  intro p hp
  unfold drawSub at hp
  by_cases hc : st.y ≤ yMargin
  · rw [if_pos hc] at hp
    simp only [List.mem_append, List.mem_singleton] at hp
    rcases hp with hp | hp
    · exact hst p hp
    · subst hp; decide
  · rw [if_neg hc] at hp
    simp only [List.mem_append, List.mem_singleton] at hp
    rcases hp with hp | hp
    · exact hst p hp
    · subst hp; exact not_le.mp hc

lemma renderSubs_drawn (n : Nat) :
    ∀ p ∈ (renderSubs n initRState).drawnYs, yMargin < p := by
  induction n with
  | zero => intro p hp; simp [renderSubs, initRState] at hp
  | succ m ih => exact drawSub_drawn _ ih

/-- C7: no sub-line is ever drawn at or below the bottom margin — every
recorded drawing position is strictly above `yMargin`; and whenever the cursor
has reached or passed the bottom margin, the step starts a new page and draws
at the top-margin position. -/
theorem no_draw_below_margin :
    (∀ (n : Nat), ∀ p ∈ (renderSubs n initRState).drawnYs, yMargin < p) ∧
    (∀ st : RState, st.y ≤ yMargin →
      (drawSub st).drawnYs = st.drawnYs ++ [pageHeight - yMargin] ∧
      (drawSub st).pages = st.pages + 1) := by
  refine ⟨renderSubs_drawn, ?_⟩
  intro st h
  unfold drawSub
  rw [if_pos h]
  exact ⟨rfl, rfl⟩

/-- C7 witness: the one drawing position of a one-sub-line render is 752,
above the margin; and a step from a cursor at the margin breaks the page and
draws at the top. -/
theorem no_draw_below_margin_witness :
    yMargin < (752 : Int) ∧
    ((drawSub ⟨40, 1, []⟩).drawnYs = [] ++ [pageHeight - yMargin] ∧
      (drawSub ⟨40, 1, []⟩).pages = 1 + 1) :=
  ⟨no_draw_below_margin.1 1 752 (by decide),
   no_draw_below_margin.2 ⟨40, 1, []⟩ (by decide)⟩

end OneTrust
